import Mathlib

/-!
# generate_wrapper: analysis and synthesis pipeline of `main.go`

A shallow embedding of the directory walk and file selection (`main`, lines
133-156), the declaration analysis (`main`, lines 168-250), the type renderer
`exprToString`, the type qualifier `fixName`, `collectStructs` and the text
template `wrapperTemplate` with its execution, together with theorems about
them.

Go strings are byte sequences; every pattern the program searches for is
ASCII, so a string is modelled as its sequence of characters.
-/

set_option maxRecDepth 100000

namespace GenerateWrapper

/-- A Go string, as the list of its characters. -/
abbrev Str := List Char

/-! ## The `strings` package functions the program calls -/

/-- Go `strings.HasPrefix(s, p)`. -/
def HasPrefix : Str → Str → Bool
  | _, [] => true
  | [], _ :: _ => false
  | c :: s, d :: p => c == d && HasPrefix s p

/-- Go `strings.HasSuffix(s, p)`. -/
def HasSuffix (s p : Str) : Bool :=
  HasPrefix s.reverse p.reverse

/-- Go `strings.Contains(s, sub)`. -/
def Contains : Str → Str → Bool
  | [], sub => HasPrefix [] sub
  | c :: s, sub => HasPrefix (c :: s) sub || Contains s sub

/-- Go `strings.Split(s, sep)` for a separator of one byte: the pieces
between the occurrences of `sep`, one more than there are occurrences. -/
def Split (sep : Char) : Str → List Str
  | [] => [[]]
  | c :: s =>
    if c = sep then [] :: Split sep s
    else
      match Split sep s with
      | [] => [[c]]
      | w :: ws => (c :: w) :: ws

/-- Go `strings.Join(elems, sep)`. -/
def Join (sep : Str) : List Str → Str
  | [] => []
  | [a] => a
  | a :: b :: rest => a ++ sep ++ Join sep (b :: rest)

/-- Go `strings.ReplaceAll(s, old, "")` for a pattern `old` of two bytes
`a b`: the non-overlapping occurrences are removed in one pass from the
left, the text after a removed occurrence being scanned on its own. -/
def RemoveAll (a b : Char) : Str → Str
  | [] => []
  | [c] => [c]
  | c :: d :: rest =>
    if c = a ∧ d = b then RemoveAll a b rest
    else c :: RemoveAll a b (d :: rest)

/-! ## The allowlist and the type qualifier -/

/-- The variable `GoTypes` (lines 17-33). -/
def GoTypes : List Str :=
  [ "int".toList, "int8".toList, "int16".toList, "int32".toList, "int64".toList,
    "uint".toList, "uint8".toList, "uint16".toList, "uint32".toList, "uint64".toList,
    "uintptr".toList,
    "float32".toList, "float64".toList,
    "complex64".toList, "complex128".toList,
    "string".toList, "byte".toList, "rune".toList,
    "bool".toList,
    "error".toList, "any".toList,
    "unsafe.Pointer".toList,
    "interface\x7b\x7d".toList ]

/-- The function `fixName` (lines 292-328). `args` is the nil slice unless
the string contains a space; `args[1]` replaces `rtype` when there are two
tokens or more; the allowlist loop sets `gt`. -/
def fixName (rtype : Str) : Str :=
  let args : List Str := if Contains rtype " ".toList then Split ' ' rtype else []
  let rtype : Str := if 2 ≤ args.length then args.getD 1 [] else rtype
  let gt : Bool := GoTypes.any (fun v => v == rtype)
  if gt then
    if 2 ≤ args.length then Join " ".toList args else rtype
  else
    let firstResult : Str :=
      if Contains rtype "[]".toList then "[]models.".toList ++ RemoveAll '[' ']' rtype
      else "models.".toList ++ rtype
    if 2 ≤ args.length then Join " ".toList (args.set 1 firstResult) else firstResult

/-! ## The syntax tree (`go/ast`), as far as the program reads it -/

/-- The `ast.Expr` node kinds that `exprToString` has no case for. -/
inductive OtherExpr
  | BadExpr | BasicLit | FuncLit | CompositeLit | ParenExpr | IndexExpr
  | IndexListExpr | SliceExpr | TypeAssertExpr | CallExpr | UnaryExpr
  | BinaryExpr | KeyValueExpr | StructType | FuncType | InterfaceType | ChanType
  deriving DecidableEq, Repr

/-- Go `fmt.Sprintf("%T", expr)` for a node of that kind: the name of its
dynamic type, a pointer into package `ast`. -/
def OtherExpr.typeName : OtherExpr → Str
  | .BadExpr => "*ast.BadExpr".toList
  | .BasicLit => "*ast.BasicLit".toList
  | .FuncLit => "*ast.FuncLit".toList
  | .CompositeLit => "*ast.CompositeLit".toList
  | .ParenExpr => "*ast.ParenExpr".toList
  | .IndexExpr => "*ast.IndexExpr".toList
  | .IndexListExpr => "*ast.IndexListExpr".toList
  | .SliceExpr => "*ast.SliceExpr".toList
  | .TypeAssertExpr => "*ast.TypeAssertExpr".toList
  | .CallExpr => "*ast.CallExpr".toList
  | .UnaryExpr => "*ast.UnaryExpr".toList
  | .BinaryExpr => "*ast.BinaryExpr".toList
  | .KeyValueExpr => "*ast.KeyValueExpr".toList
  | .StructType => "*ast.StructType".toList
  | .FuncType => "*ast.FuncType".toList
  | .InterfaceType => "*ast.InterfaceType".toList
  | .ChanType => "*ast.ChanType".toList

/-- An `ast.Expr`. The six node kinds `exprToString` matches carry the
fields it reads; `hasLen` tells an array type `[n]T` from a slice type `[]T`
(the length expression is never read); every other kind carries its kind
only. -/
inductive Expr
  | Ident (Name : Str)
  | SelectorExpr (X : Expr) (Sel : Str)
  | StarExpr (X : Expr)
  | ArrayType (hasLen : Bool) (Elt : Expr)
  | MapType (Key : Expr) (Value : Expr)
  | Ellipsis (Elt : Expr)
  | Other (kind : OtherExpr)
  deriving DecidableEq, Repr

/-- An `ast.Field`: the names declared together and their type. -/
structure Field where
  Names : List Str
  Typ : Expr
  deriving DecidableEq, Repr

/-- An `ast.FuncDecl`: `Recv` is `fn.Recv.List` (`none` for a plain
function), `Params` is `fn.Type.Params.List` and `Results` is
`fn.Type.Results.List` (`none` when `fn.Type.Results` is nil). -/
structure FuncDecl where
  Recv : Option (List Field)
  Name : Str
  Params : List Field
  Results : Option (List Field)
  deriving DecidableEq, Repr

/-- The function `exprToString` (lines 273-290). -/
def exprToString : Expr → Str
  | .Ident name => name
  | .SelectorExpr x sel => exprToString x ++ ".".toList ++ sel
  | .StarExpr x => "*".toList ++ exprToString x
  | .ArrayType _ elt => "[]".toList ++ exprToString elt
  | .MapType key value =>
    "map[".toList ++ exprToString key ++ "]".toList ++ exprToString value
  | .Ellipsis elt => "...".toList ++ exprToString elt
  | .Other kind => kind.typeName

/-! ## The analysis of one method (lines 196-249) -/

/-- The struct `Method` (lines 89-98). -/
structure Method where
  Name : Str
  ParamsStr : Str
  ArgsStr : Str
  ResultsStr : Str
  FirstResult : Str
  KeyFormat : Str
  KeyArgs : Str
  UseCache : Bool
  deriving DecidableEq, Repr

/-- The four slices the parameter loop appends to (lines 197-200). -/
structure ParamAcc where
  paramStrs : List Str
  argNames : List Str
  keyFormatParts : List Str
  keyArgs : List Str
  deriving DecidableEq, Repr

/-- The body of the inner loop over `field.Names` (lines 204-210). -/
def nameStep (typ : Str) (acc : ParamAcc) (name : Str) : ParamAcc :=
  let acc : ParamAcc :=
    { acc with
      paramStrs := acc.paramStrs ++ [name ++ " ".toList ++ typ]
      argNames := acc.argNames ++ [name] }
  if name ≠ "ctx".toList then
    { acc with
      keyFormatParts := acc.keyFormatParts ++ ["%v".toList]
      keyArgs := acc.keyArgs ++ [name] }
  else acc

/-- The body of the outer loop over `fn.Type.Params.List` (lines 202-211). -/
def fieldStep (acc : ParamAcc) (field : Field) : ParamAcc :=
  field.Names.foldl (nameStep (exprToString field.Typ)) acc

/-- The parameter loop (lines 197-212). -/
def collectParams (params : List Field) : ParamAcc :=
  params.foldl fieldStep ⟨[], [], [], []⟩

/-- The slice `resultStrs` and the variable `firstResult` (lines 215-216). -/
structure ResultAcc where
  resultStrs : List Str
  firstResult : Str
  deriving DecidableEq, Repr

/-- The loop over `fn.Type.Results.List` from index `i` on (lines 218-224). -/
def resultLoop (i : Nat) (acc : ResultAcc) : List Field → ResultAcc
  | [] => acc
  | field :: rest =>
    let rtype := exprToString field.Typ
    resultLoop (i + 1)
      { resultStrs := acc.resultStrs ++ [rtype]
        firstResult := if i = 0 then fixName rtype else acc.firstResult }
      rest

/-- The result collection (lines 215-225). -/
def collectResults (results : Option (List Field)) : ResultAcc :=
  match results with
  | none => ⟨[], "interface\x7b\x7d".toList⟩
  | some fields => resultLoop 0 ⟨[], "interface\x7b\x7d".toList⟩ fields

/-- The loop `for k := range paramStrs`, from index `k` on (lines 227-231). -/
def fixParams (k : Nat) : List Str → List Str
  | [] => []
  | s :: rest => (if 0 < k then fixName s else s) :: fixParams (k + 1) rest

/-- The loop `for k := range resultStrs` (lines 232-234). -/
def fixResults : List Str → List Str
  | [] => []
  | s :: rest => fixName s :: fixResults rest

/-- The `Method` value appended for one function declaration
(lines 196-249). -/
def buildMethod (fn : FuncDecl) : Method :=
  let ps := collectParams fn.Params
  let rs := collectResults fn.Results
  let paramStrs := fixParams 0 ps.paramStrs
  let resultStrs := fixResults rs.resultStrs
  { Name := fn.Name
    ParamsStr := Join ", ".toList paramStrs
    ArgsStr := Join ", ".toList ps.argNames
    ResultsStr := Join ", ".toList resultStrs
    FirstResult := rs.firstResult
    KeyFormat := "cache:".toList ++ fn.Name ++ ":".toList ++ Join ":".toList ps.keyFormatParts
    KeyArgs := Join ", ".toList ps.keyArgs
    UseCache :=
      !HasPrefix fn.Name "Set".toList &&
      !HasPrefix fn.Name "Insert".toList &&
      !HasPrefix fn.Name "Update".toList &&
      !HasPrefix fn.Name "SoftDelete".toList &&
      !HasPrefix fn.Name "Create".toList &&
      !HasPrefix fn.Name "Delete".toList }

/-- The receiver test of lines 182-194: a receiver list that is present and
not empty, whose first type is a pointer to the identifier `Queries`. -/
def isQueriesMethod (fn : FuncDecl) : Bool :=
  match fn.Recv with
  | none => false
  | some [] => false
  | some (field :: _) =>
    match field.Typ with
    | .StarExpr (.Ident name) => name == "Queries".toList
    | _ => false

/-! ## The text template `wrapperTemplate` (lines 57-87) -/

/-- The text before `range .Methods`. -/
def templateHeader : Str :=
  "package cache\n\nimport (\n\t\"context\"\n\t\"encoding/json\"\n\t\"fmt\"\n\t\"telegcat-core/sql/models\"\n)\n".toList

/-- The signature line, up to the first `if .UseCache` (line 66). -/
def signatureText (m : Method) : Str :=
  "\nfunc (c *CachedQueries) ".toList ++ m.Name ++ "(".toList ++ m.ParamsStr ++
    ") (".toList ++ m.ResultsStr ++ ") \x7b ".toList

/-- The body of the first `if .UseCache` (lines 66-75): the cache read. -/
def cacheReadText (m : Method) : Str :=
  "\t\n\tkey := fmt.Sprintf(\"".toList ++ m.KeyFormat ++ "\", ".toList ++ m.KeyArgs ++
    ")\n\tval, err := c.KV.Get(ctx, key)\n\tif err == nil && val != nil \x7b\n\t\tvar cached ".toList ++
    m.FirstResult ++
    "\n\t\tif err := json.Unmarshal(val, &cached); err == nil \x7b\n\t\t\treturn cached, nil\n\t\t\x7d\n\t\x7d\n\t".toList

/-- The text between the two `if .UseCache` (lines 75-77): the delegation. -/
def delegateText (m : Method) : Str :=
  "\n\tresult, err := c.DB.".toList ++ m.Name ++ "(".toList ++ m.ArgsStr ++ ")\t\n\t".toList

/-- The body of the second `if .UseCache` (lines 77-82): the cache write. -/
def cacheWriteText : Str :=
  "\n\tif err == nil \x7b\n\t\tbytes, _ := json.Marshal(result)\n\t\t_ = c.KV.Set(ctx, key, bytes)\n\t\x7d\n\t".toList

/-- The text after the second `end`, to the `end` of the range (lines 82-85). -/
def returnText : Str :=
  "\n\treturn result, err\n\x7d\n".toList

/-- The body of `range .Methods` executed on one method (lines 65-85). -/
def renderMethod (m : Method) : Str :=
  signatureText m ++ (if m.UseCache then cacheReadText m else []) ++ delegateText m ++
    (if m.UseCache then cacheWriteText else []) ++ returnText

/-- The range over `.Methods`. -/
def renderMethods : List Method → Str
  | [] => []
  | m :: ms => renderMethod m ++ renderMethods ms

/-- The template `wrapperTemplate` executed on the method list
(lines 252-259). -/
def renderWrapper (methods : List Method) : Str :=
  templateHeader ++ renderMethods methods ++ "\n\n".toList

/-! ## The template as `text/template` parses and executes it -/

/-- The struct `TemplateData` (lines 100-104). -/
structure TemplateData where
  PackagePath : Str
  PackageAlias : Str
  Methods : List Method
  deriving DecidableEq, Repr

/-- The string fields of `Method` a template action can print. -/
inductive MethodField
  | Name | ParamsStr | ArgsStr | ResultsStr | FirstResult | KeyFormat | KeyArgs
  deriving DecidableEq, Repr

/-- The value of the field `f` of the method that is the dot. -/
def MethodField.get : MethodField → Method → Str
  | .Name, m => m.Name
  | .ParamsStr, m => m.ParamsStr
  | .ArgsStr, m => m.ArgsStr
  | .ResultsStr, m => m.ResultsStr
  | .FirstResult, m => m.FirstResult
  | .KeyFormat, m => m.KeyFormat
  | .KeyArgs, m => m.KeyArgs

/-- A node without a body: literal text, or an action that prints a field of
the dot. -/
inductive Leaf
  | Text (text : Str)
  | Action (field : MethodField)
  deriving DecidableEq, Repr

/-- A node of the body of `range .Methods`: a leaf, or `if .UseCache` with
its body, closed by its `end`. -/
inductive MethodNode
  | Leaf (leaf : Leaf)
  | IfUseCache (body : List Leaf)
  deriving DecidableEq, Repr

/-- A node at the top of the template: literal text, or `range .Methods`
with its body, closed by its `end`. -/
inductive TemplateNode
  | Text (text : Str)
  | RangeMethods (body : List MethodNode)
  deriving DecidableEq, Repr

/-- Execution of a leaf with the method `m` as dot: text is copied, a string
field is printed as it is (`text/template` escapes nothing). -/
def Leaf.exec (m : Method) : Leaf → Str
  | .Text text => text
  | .Action field => field.get m

/-- Execution of a list of leaves, in order. -/
def execLeaves (m : Method) : List Leaf → Str
  | [] => []
  | leaf :: rest => leaf.exec m ++ execLeaves m rest

/-- Execution of a node of the range body: the body of `if .UseCache` is
executed when the field is true and skipped otherwise (there is no `else`). -/
def MethodNode.exec (m : Method) : MethodNode → Str
  | .Leaf leaf => leaf.exec m
  | .IfUseCache body => if m.UseCache then execLeaves m body else []

/-- Execution of the range body on one method. -/
def execMethodNodes (m : Method) : List MethodNode → Str
  | [] => []
  | node :: rest => node.exec m ++ execMethodNodes m rest

/-- The range: its body once for each method, in slice order. -/
def execRange (body : List MethodNode) : List Method → Str
  | [] => []
  | m :: ms => execMethodNodes m body ++ execRange body ms

/-- Execution of a top-level node on the template data. -/
def TemplateNode.exec (data : TemplateData) : TemplateNode → Str
  | .Text text => text
  | .RangeMethods body => execRange body data.Methods

/-- The method `Execute` of a parsed template. -/
def execTemplate (data : TemplateData) : List TemplateNode → Str
  | [] => []
  | node :: rest => node.exec data ++ execTemplate data rest

/-- The body of `range .Methods` in `wrapperTemplate` (lines 65-85). -/
def wrapperRangeBody : List MethodNode :=
  [ .Leaf (.Text "\nfunc (c *CachedQueries) ".toList),
    .Leaf (.Action .Name),
    .Leaf (.Text "(".toList),
    .Leaf (.Action .ParamsStr),
    .Leaf (.Text ") (".toList),
    .Leaf (.Action .ResultsStr),
    .Leaf (.Text ") \x7b ".toList),
    .IfUseCache
      [ .Text "\t\n\tkey := fmt.Sprintf(\"".toList,
        .Action .KeyFormat,
        .Text "\", ".toList,
        .Action .KeyArgs,
        .Text ")\n\tval, err := c.KV.Get(ctx, key)\n\tif err == nil && val != nil \x7b\n\t\tvar cached ".toList,
        .Action .FirstResult,
        .Text "\n\t\tif err := json.Unmarshal(val, &cached); err == nil \x7b\n\t\t\treturn cached, nil\n\t\t\x7d\n\t\x7d\n\t".toList ],
    .Leaf (.Text "\n\tresult, err := c.DB.".toList),
    .Leaf (.Action .Name),
    .Leaf (.Text "(".toList),
    .Leaf (.Action .ArgsStr),
    .Leaf (.Text ")\t\n\t".toList),
    .IfUseCache
      [ .Text "\n\tif err == nil \x7b\n\t\tbytes, _ := json.Marshal(result)\n\t\t_ = c.KV.Set(ctx, key, bytes)\n\t\x7d\n\t".toList ],
    .Leaf (.Text "\n\treturn result, err\n\x7d\n".toList) ]

/-- The constant `wrapperTemplate` (lines 57-87), parsed. -/
def wrapperTemplate : List TemplateNode :=
  [ .Text "package cache\n\nimport (\n\t\"context\"\n\t\"encoding/json\"\n\t\"fmt\"\n\t\"telegcat-core/sql/models\"\n)\n".toList,
    .RangeMethods wrapperRangeBody,
    .Text "\n\n".toList ]

/-! ## The declarations of a file and the loop over them (lines 168-250) -/

/-- The token of a general declaration. -/
inductive Token
  | IMPORT | CONST | TYPE | VAR
  deriving DecidableEq, Repr

/-- An `ast.Spec`. A type specification carries its name, its type and, when
the type is a struct type, the field list of that struct. -/
inductive Spec
  | ImportSpec
  | ValueSpec
  | TypeSpec (Name : Str) (Typ : Expr) (Fields : List Field)
  deriving DecidableEq, Repr

/-- An `ast.GenDecl`. -/
structure GenDecl where
  Tok : Token
  Specs : List Spec
  deriving DecidableEq, Repr

/-- An `ast.Decl`, an entry of `node.Decls`. -/
inductive Decl
  | BadDecl
  | GenDecl (gen : GenDecl)
  | FuncDecl (fn : FuncDecl)
  deriving DecidableEq, Repr

/-- The assignment `structs[name] = fields` on a map kept as a list of
entries. -/
def mapSet (structs : List (Str × List Field)) (name : Str) (fields : List Field) :
    List (Str × List Field) :=
  if structs.any (fun e => e.1 == name) then
    structs.map (fun e => if e.1 == name then (name, fields) else e)
  else structs ++ [(name, fields)]

/-- The loop over `gen.Specs` (lines 337-342). -/
def specsLoop (structs : List (Str × List Field)) : List Spec → List (Str × List Field)
  | [] => structs
  | .TypeSpec name (.Other .StructType) fields :: rest =>
    specsLoop (mapSet structs name fields) rest
  | _ :: rest => specsLoop structs rest

/-- The loop over `file.Decls` (lines 332-343). -/
def structsLoop (structs : List (Str × List Field)) : List Decl → List (Str × List Field)
  | [] => structs
  | .GenDecl gen :: rest =>
    if gen.Tok = .TYPE then structsLoop (specsLoop structs gen.Specs) rest
    else structsLoop structs rest
  | _ :: rest => structsLoop structs rest

/-- The function `collectStructs` (lines 330-345). -/
def collectStructs (decls : List Decl) : List (Str × List Field) :=
  structsLoop [] decls

/-- The loop over `node.Decls` that appends to `methods` (lines 180-250). -/
def methodsLoop (methods : List Method) : List Decl → List Method
  | [] => methods
  | .FuncDecl fn :: rest =>
    if isQueriesMethod fn then methodsLoop (methods ++ [buildMethod fn]) rest
    else methodsLoop methods rest
  | _ :: rest => methodsLoop methods rest

/-- The slice `methods` after the loop (lines 178-250). -/
def collectMethods (decls : List Decl) : List Method :=
  methodsLoop [] decls

/-- What one parsed file yields: the struct map the loop of lines 169-176
prints from, the method list, and the text written to the wrapper file. -/
structure FileOutput where
  structs : List (Str × List Field)
  methods : List Method
  text : Str
  deriving DecidableEq, Repr

/-- The body of the loop over `files` from the parsed file on
(lines 168-262), with `pkgAlias` the alias `sqlc` of line 112. -/
def generateFile (decls : List Decl) : FileOutput :=
  let structs := collectStructs decls
  let methods := collectMethods decls
  { structs := structs
    methods := methods
    text := execTemplate ⟨[], "sqlc".toList, methods⟩ wrapperTemplate }

/-! ## The directory walk and the file selection (lines 133-156) -/

/-- An entry the walk visits without error: the path given to the callback,
and `d.Name()` and `d.IsDir()` of its directory entry. -/
structure WalkEntry where
  path : Str
  Name : Str
  IsDir : Bool
  deriving DecidableEq, Repr

/-- The callback of `filepath.WalkDir` on such an entry (lines 138-145). -/
def walkFn (files : List Str) (e : WalkEntry) : List Str :=
  if e.IsDir then files
  else if !HasSuffix e.Name ".sql.go".toList then files
  else files ++ [e.path]

/-- The slice `files` after the walk (lines 133-146). -/
def walkFiles (entries : List WalkEntry) : List Str :=
  entries.foldl walkFn []

/-- The loop over `files` (lines 151-156): the files that get past the guard
`len(a) < 2`, each with the output name `a[len(a)-1]`; these are the files
that are read, parsed and given a wrapper file. -/
def fileLoop : List Str → List (Str × Str)
  | [] => []
  | file :: rest =>
    let a := Split '/' file
    if a.length < 2 then fileLoop rest
    else (file, a.getLastD []) :: fileLoop rest

/-- The files the run analyzes, with their output names. -/
def analyzedFiles (entries : List WalkEntry) : List (Str × Str) :=
  fileLoop (walkFiles entries)

/-! ## Reference notions the statements are phrased in -/

/-- The names a parameter list declares, in declared order: what the
statements below call the parameters of a method. -/
def declaredNames : List Field → List Str
  | [] => []
  | field :: rest => field.Names ++ declaredNames rest

/-- The declared parameters as pairs of a name and its rendered type, in
declared order. -/
def declaredParams : List Field → List (Str × Str)
  | [] => []
  | field :: rest =>
    field.Names.map (fun name => (name, exprToString field.Typ)) ++ declaredParams rest

/-- The rendered result types, one for each entry of the result list, in
declared order. -/
def declaredResults : Option (List Field) → List Str
  | none => []
  | some fields => fields.map (fun field => exprToString field.Typ)

/-- Go `(*ast.FieldList).NumFields`: the number of parameters or results a
field list stands for, a field without names counting for one. -/
def NumFields : List Field → Nat
  | [] => 0
  | field :: rest => (if field.Names.length = 0 then 1 else field.Names.length) + NumFields rest

/-- The number of occurrences of the verb `%v` in a format string, counted
from the left. -/
def countVerbs : Str → Nat
  | [] => 0
  | [_] => 0
  | c :: d :: rest =>
    if c = '%' ∧ d = 'v' then countVerbs rest + 1 else countVerbs (d :: rest)

/-- The identifiers a type expression is built from, left to right. -/
def identsOf : Expr → List Str
  | .Ident name => [name]
  | .SelectorExpr x sel => identsOf x ++ [sel]
  | .StarExpr x => identsOf x
  | .ArrayType _ elt => identsOf elt
  | .MapType key value => identsOf key ++ identsOf value
  | .Ellipsis elt => identsOf elt
  | .Other _ => []

/-- The function declarations among the top-level declarations, in source
order. -/
def funcDecls : List Decl → List FuncDecl
  | [] => []
  | .FuncDecl fn :: rest => fn :: funcDecls rest
  | _ :: rest => funcDecls rest

/-- The name an entry of `ParamsStr` declares: its text before the first
space. -/
def entryName (entry : Str) : Str :=
  entry.takeWhile (fun c => c ≠ ' ')

/-! ## Facts about the string functions -/

theorem HasPrefix_iff (s p : Str) : HasPrefix s p = true ↔ p <+: s := by
  induction s generalizing p with
  | nil =>
    cases p with
    | nil => simp [HasPrefix]
    | cons d p => simp [HasPrefix]
  | cons c s ih =>
    cases p with
    | nil => simp [HasPrefix]
    | cons d p =>
      simp only [HasPrefix, Bool.and_eq_true, beq_iff_eq, ih, List.cons_prefix_cons]
      constructor
      · rintro ⟨h, h2⟩
        exact ⟨h.symm, h2⟩
      · rintro ⟨h, h2⟩
        exact ⟨h.symm, h2⟩

theorem Contains_iff (s sub : Str) : Contains s sub = true ↔ sub <:+: s := by
  induction s with
  | nil =>
    simp only [Contains, HasPrefix_iff, List.prefix_nil, List.infix_nil]
  | cons c s ih =>
    simp only [Contains, Bool.or_eq_true, HasPrefix_iff, ih, List.infix_cons_iff]

theorem Contains_char (s : Str) (c : Char) : Contains s [c] = true ↔ c ∈ s := by
  rw [Contains_iff]
  constructor
  · rintro ⟨a, b, rfl⟩
    simp
  · intro h
    obtain ⟨a, b, rfl⟩ := List.append_of_mem h
    exact ⟨a, b, by simp⟩

theorem Split_of_not_mem (sep : Char) (s : Str) (h : sep ∉ s) : Split sep s = [s] := by
  induction s with
  | nil => rfl
  | cons c s ih =>
    simp only [List.mem_cons, not_or] at h
    have hc : c ≠ sep := fun e => h.1 e.symm
    simp [Split, hc, ih h.2]

theorem Split_append (sep : Char) (a b : Str) (h : sep ∉ a) :
    Split sep (a ++ sep :: b) = a :: Split sep b := by
  induction a with
  | nil => simp [Split]
  | cons c a ih =>
    simp only [List.mem_cons, not_or] at h
    have hc : c ≠ sep := fun e => h.1 e.symm
    simp [Split, hc, ih h.2]

theorem RemoveAll_of_not_infix (a b : Char) (s : Str) (h : ¬ [a, b] <:+: s) :
    RemoveAll a b s = s := by
  induction s with
  | nil => rfl
  | cons c s ih =>
    cases s with
    | nil => rfl
    | cons d rest =>
      have h1 : ¬ (c = a ∧ d = b) := by
        rintro ⟨rfl, rfl⟩
        exact h ⟨[], rest, rfl⟩
      have h2 : ¬ [a, b] <:+: d :: rest := fun hi => h (List.infix_cons hi)
      simp only [RemoveAll, h1, if_false, ih h2]

/-! ## Facts about `fixName` -/

theorem GoTypes_any_iff (s : Str) : (GoTypes.any fun v => v == s) = true ↔ s ∈ GoTypes := by
  simp only [List.any_eq_true, beq_iff_eq]
  constructor
  · rintro ⟨v, hv, rfl⟩
    exact hv
  · intro h
    exact ⟨s, h, rfl⟩

theorem GoTypes_no_space : ∀ t ∈ GoTypes, ' ' ∉ t := by decide

theorem GoTypes_head : ∀ t ∈ GoTypes, t.head? ≠ some '[' := by decide

theorem Contains_space_false (s : Str) (h : ' ' ∉ s) : Contains s " ".toList = false := by
  rw [Bool.eq_false_iff]
  intro hh
  exact h ((Contains_char s ' ').1 hh)

theorem Contains_slice_iff (s : Str) : Contains s "[]".toList = true ↔ "[]".toList <:+: s :=
  Contains_iff s "[]".toList

theorem fixName_unfold_one (s : Str) (hc : Contains s " ".toList = false) :
    fixName s =
      if (GoTypes.any fun v => v == s) = true then s
      else if Contains s "[]".toList = true then "[]models.".toList ++ RemoveAll '[' ']' s
      else "models.".toList ++ s := by
  have h20 : ¬ (2 ≤ 0) := by decide
  simp only [fixName, hc, Bool.false_eq_true, if_false, List.length_nil, h20]

theorem fixName_unfold_two (s a b : Str) (hc : Contains s " ".toList = true)
    (hs : Split ' ' s = [a, b]) :
    fixName s =
      if (GoTypes.any fun v => v == b) = true then a ++ " ".toList ++ b
      else a ++ " ".toList ++
        (if Contains b "[]".toList = true then "[]models.".toList ++ RemoveAll '[' ']' b
         else "models.".toList ++ b) := by
  have h22 : 2 ≤ [a, b].length := Nat.le_refl 2
  simp only [fixName, hc, hs, if_true, h22, List.getD_cons_succ, List.getD_cons_zero,
    List.set_cons_succ, List.set_cons_zero, Join]

/-- The qualifier on a string of one token. -/
theorem fixName_one_token (s : Str) (h : ' ' ∉ s) :
    fixName s =
      if s ∈ GoTypes then s
      else if "[]".toList <:+: s then "[]models.".toList ++ RemoveAll '[' ']' s
      else "models.".toList ++ s := by
  rw [fixName_unfold_one s (Contains_space_false s h)]
  simp only [GoTypes_any_iff, Contains_slice_iff]

/-- The qualifier on a string of two tokens. -/
theorem fixName_two_tokens (a b : Str) (ha : ' ' ∉ a) (hb : ' ' ∉ b) :
    fixName (a ++ " ".toList ++ b) = a ++ " ".toList ++ fixName b := by
  have hsp : " ".toList = [' '] := rfl
  have hc : Contains (a ++ " ".toList ++ b) " ".toList = true := by
    rw [hsp, Contains_char]
    simp
  have hsplit : Split ' ' (a ++ " ".toList ++ b) = [a, b] := by
    rw [hsp, List.append_assoc, List.singleton_append, Split_append ' ' a b ha,
      Split_of_not_mem ' ' b hb]
  rw [fixName_unfold_two _ a b hc hsplit, fixName_unfold_one b (Contains_space_false b hb)]
  by_cases hg : (GoTypes.any fun v => v == b) = true
  · rw [if_pos hg, if_pos hg]
  · rw [if_neg hg, if_neg hg]

/-! ## Facts about the parameter and result loops -/

theorem foldl_step_generic (sp ctx verb typ : Str) (f : ParamAcc → Str → ParamAcc)
    (hf : ∀ acc name, f acc name =
      if name ≠ ctx then
        { paramStrs := acc.paramStrs ++ [name ++ sp ++ typ]
          argNames := acc.argNames ++ [name]
          keyFormatParts := acc.keyFormatParts ++ [verb]
          keyArgs := acc.keyArgs ++ [name] }
      else
        { paramStrs := acc.paramStrs ++ [name ++ sp ++ typ]
          argNames := acc.argNames ++ [name]
          keyFormatParts := acc.keyFormatParts
          keyArgs := acc.keyArgs })
    (names : List Str) (acc : ParamAcc) :
    names.foldl f acc =
      { paramStrs := acc.paramStrs ++ names.map (fun name => name ++ sp ++ typ)
        argNames := acc.argNames ++ names
        keyFormatParts := acc.keyFormatParts ++
          List.replicate (names.filter (fun name => name ≠ ctx)).length verb
        keyArgs := acc.keyArgs ++ names.filter (fun name => name ≠ ctx) } := by
  induction names generalizing acc with
  | nil => simp
  | cons name names ih =>
    rw [List.foldl_cons, ih, hf]
    by_cases hn : name = ctx
    · simp [hn]
    · simp [hn, List.replicate_succ]

theorem foldl_nameStep (typ : Str) (names : List Str) (acc : ParamAcc) :
    names.foldl (nameStep typ) acc =
      { paramStrs := acc.paramStrs ++ names.map (fun name => name ++ " ".toList ++ typ)
        argNames := acc.argNames ++ names
        keyFormatParts := acc.keyFormatParts ++
          List.replicate (names.filter (fun name => name ≠ "ctx".toList)).length "%v".toList
        keyArgs := acc.keyArgs ++ names.filter (fun name => name ≠ "ctx".toList) } :=
  foldl_step_generic " ".toList "ctx".toList "%v".toList typ (nameStep typ)
    (fun _ _ => rfl) names acc

theorem foldl_fieldStep (params : List Field) (acc : ParamAcc) :
    params.foldl fieldStep acc =
      { paramStrs := acc.paramStrs ++
          (declaredParams params).map (fun p => p.1 ++ " ".toList ++ p.2)
        argNames := acc.argNames ++ declaredNames params
        keyFormatParts := acc.keyFormatParts ++
          List.replicate ((declaredNames params).filter (fun name => name ≠ "ctx".toList)).length
            "%v".toList
        keyArgs := acc.keyArgs ++
          (declaredNames params).filter (fun name => name ≠ "ctx".toList) } := by
  induction params generalizing acc with
  | nil => simp [declaredParams, declaredNames]
  | cons field params ih =>
    rw [List.foldl_cons, ih, fieldStep, foldl_nameStep]
    generalize "ctx".toList = ctx
    generalize " ".toList = sp
    generalize "%v".toList = verb
    simp only [declaredParams, declaredNames, List.map_append, List.map_map, List.filter_append,
      List.length_append, List.replicate_add, List.append_assoc, Function.comp_def]

theorem collectParams_eq (params : List Field) :
    collectParams params =
      { paramStrs := (declaredParams params).map (fun p => p.1 ++ " ".toList ++ p.2)
        argNames := declaredNames params
        keyFormatParts :=
          List.replicate ((declaredNames params).filter (fun name => name ≠ "ctx".toList)).length
            "%v".toList
        keyArgs := (declaredNames params).filter (fun name => name ≠ "ctx".toList) } := by
  rw [collectParams, foldl_fieldStep]
  simp

theorem fixParams_succ (k : Nat) (l : List Str) : fixParams (k + 1) l = l.map fixName := by
  induction l generalizing k with
  | nil => rfl
  | cons s rest ih => simp [fixParams, ih]

theorem fixParams_zero_cons (s : Str) (l : List Str) :
    fixParams 0 (s :: l) = s :: l.map fixName := by
  simp [fixParams, fixParams_succ]

theorem fixResults_eq (l : List Str) : fixResults l = l.map fixName := by
  induction l with
  | nil => rfl
  | cons s rest ih => simp [fixResults, ih]

theorem resultLoop_resultStrs (fields : List Field) (i : Nat) (acc : ResultAcc) :
    (resultLoop i acc fields).resultStrs =
      acc.resultStrs ++ fields.map (fun field => exprToString field.Typ) := by
  induction fields generalizing i acc with
  | nil => simp [resultLoop]
  | cons field rest ih => simp [resultLoop, ih]

theorem resultLoop_firstResult_succ (fields : List Field) (i : Nat) (acc : ResultAcc) :
    (resultLoop (i + 1) acc fields).firstResult = acc.firstResult := by
  induction fields generalizing i acc with
  | nil => simp [resultLoop]
  | cons field rest ih => simp [resultLoop, ih]

theorem collectResults_resultStrs (results : Option (List Field)) :
    (collectResults results).resultStrs = declaredResults results := by
  cases results with
  | none => rfl
  | some fields => simp [collectResults, declaredResults, resultLoop_resultStrs]

theorem HasPrefix_false_iff (s p : Str) : HasPrefix s p = false ↔ ¬ p <+: s := by
  rw [← HasPrefix_iff, Bool.not_eq_true]

theorem useCache_iff (fn : FuncDecl) :
    (buildMethod fn).UseCache = true ↔
      ∀ p ∈ ["Set".toList, "Insert".toList, "Update".toList, "SoftDelete".toList,
        "Create".toList, "Delete".toList], ¬ p <+: fn.Name := by
  simp only [buildMethod, Bool.and_eq_true, Bool.not_eq_true', HasPrefix_false_iff,
    List.mem_cons, forall_eq_or_imp, List.not_mem_nil, false_imp_iff, implies_true, and_true,
    and_assoc]

theorem collectResults_firstResult_of_empty (results : Option (List Field))
    (h : declaredResults results = []) :
    (collectResults results).firstResult = "interface\x7b\x7d".toList := by
  cases results with
  | none => rfl
  | some fields =>
    cases fields with
    | nil => rfl
    | cons field rest => simp [declaredResults] at h

theorem countVerbs_cons_of_ne (c : Char) (t : Str) (h : c ≠ '%') :
    countVerbs (c :: t) = countVerbs t := by
  cases t with
  | nil => rfl
  | cons d rest => simp [countVerbs, h]

theorem countVerbs_append_of_not_mem (pre s : Str) (h : '%' ∉ pre) :
    countVerbs (pre ++ s) = countVerbs s := by
  induction pre with
  | nil => rfl
  | cons c pre ih =>
    simp only [List.mem_cons, not_or] at h
    rw [List.cons_append, countVerbs_cons_of_ne c _ (fun e => h.1 e.symm), ih h.2]

theorem countVerbs_join_replicate (k : Nat) :
    countVerbs (Join ":".toList (List.replicate k "%v".toList)) = k := by
  induction k with
  | zero => rfl
  | succ k ih =>
    cases k with
    | zero => rfl
    | succ k =>
      have h : Join ":".toList (List.replicate (k + 1 + 1) "%v".toList) =
          '%' :: 'v' :: ':' :: Join ":".toList (List.replicate (k + 1) "%v".toList) := rfl
      rw [h]
      have h2 : ∀ t : Str, countVerbs ('%' :: 'v' :: t) = countVerbs t + 1 := by
        intro t
        simp [countVerbs]
      rw [h2, countVerbs_cons_of_ne ':' _ (by decide), ih]

theorem keyFormat_eq (fn : FuncDecl) :
    (buildMethod fn).KeyFormat =
      "cache:".toList ++ fn.Name ++ ":".toList ++
        Join ":".toList
          (List.replicate
            ((declaredNames fn.Params).filter (fun name => name ≠ "ctx".toList)).length
            "%v".toList) := by
  simp only [buildMethod, collectParams_eq]

theorem keyArgs_eq (fn : FuncDecl) :
    (buildMethod fn).KeyArgs =
      Join ", ".toList ((declaredNames fn.Params).filter (fun name => name ≠ "ctx".toList)) := by
  simp only [buildMethod, collectParams_eq]

theorem countVerbs_keyFormat (fn : FuncDecl) (hname : '%' ∉ fn.Name) :
    countVerbs (buildMethod fn).KeyFormat =
      ((declaredNames fn.Params).filter (fun name => name ≠ "ctx".toList)).length := by
  rw [keyFormat_eq, countVerbs_append_of_not_mem, countVerbs_join_replicate]
  have h1 : '%' ∉ "cache:".toList := by decide
  have h2 : '%' ∉ ":".toList := by decide
  simp only [List.mem_append, not_or]
  exact ⟨⟨h1, hname⟩, h2⟩

/-! ## Facts about the template, the declaration loop and the walk -/

theorem execMethodNodes_wrapper (m : Method) :
    execMethodNodes m wrapperRangeBody = renderMethod m := by
  cases h : m.UseCache <;>
    simp only [wrapperRangeBody, execMethodNodes, MethodNode.exec, Leaf.exec, execLeaves,
      MethodField.get, renderMethod, signatureText, cacheReadText, delegateText,
      cacheWriteText, returnText, h, if_true, Bool.false_eq_true, if_false,
      List.append_assoc, List.append_nil, List.nil_append]

theorem execRange_wrapper (ms : List Method) :
    execRange wrapperRangeBody ms = renderMethods ms := by
  induction ms with
  | nil => rfl
  | cons m ms ih => rw [execRange, renderMethods, ih, execMethodNodes_wrapper]

theorem execTemplate_wrapper (data : TemplateData) :
    execTemplate data wrapperTemplate = renderWrapper data.Methods := by
  simp only [wrapperTemplate, execTemplate, TemplateNode.exec, execRange_wrapper, renderWrapper,
    templateHeader, List.append_nil, List.append_assoc]

theorem methodsLoop_eq (decls : List Decl) (methods : List Method) :
    methodsLoop methods decls =
      methods ++ ((funcDecls decls).filter isQueriesMethod).map buildMethod := by
  induction decls generalizing methods with
  | nil => simp [methodsLoop, funcDecls]
  | cons decl rest ih =>
    cases decl with
    | BadDecl => simp only [methodsLoop, funcDecls, ih]
    | GenDecl gen => simp only [methodsLoop, funcDecls, ih]
    | FuncDecl fn =>
      by_cases hq : isQueriesMethod fn = true
      · simp [methodsLoop, funcDecls, ih, hq]
      · simp [methodsLoop, funcDecls, ih, hq]

theorem isQueriesMethod_iff (fn : FuncDecl) :
    isQueriesMethod fn = true ↔
      ∃ names rest, fn.Recv = some (⟨names, .StarExpr (.Ident "Queries".toList)⟩ :: rest) := by
  unfold isQueriesMethod
  constructor
  · intro h
    split at h
    · exact absurd h (by simp)
    · exact absurd h (by simp)
    · rename_i field rest hrecv
      split at h
      · rename_i name htyp
        have hn : name = "Queries".toList := by simpa using h
        refine ⟨field.Names, rest, ?_⟩
        rw [hrecv]
        cases field with
        | mk names typ =>
          simp only at htyp
          rw [htyp, hn]
      · exact absurd h (by simp)
  · rintro ⟨names, rest, h⟩
    rw [h]
    simp

theorem HasSuffix_iff (s p : Str) : HasSuffix s p = true ↔ p <:+ s := by
  rw [HasSuffix, HasPrefix_iff, List.reverse_prefix]

theorem Split_ne_nil (sep : Char) (s : Str) : Split sep s ≠ [] := by
  cases s with
  | nil => simp [Split]
  | cons c s =>
    by_cases hc : c = sep
    · simp [Split, hc]
    · simp only [Split, hc, if_false]
      cases Split sep s <;> simp

theorem Split_length (sep : Char) (s : Str) : (Split sep s).length = s.count sep + 1 := by
  induction s with
  | nil => rfl
  | cons c s ih =>
    by_cases hc : c = sep
    · subst hc
      simp [Split, ih]
    · have hne := Split_ne_nil sep s
      simp only [Split, hc, if_false]
      cases hs : Split sep s with
      | nil => exact absurd hs hne
      | cons w ws =>
        rw [hs] at ih
        simp only [List.length_cons] at ih ⊢
        rw [ih, List.count_cons_of_ne (Ne.symm hc)]

theorem Split_length_lt_two (s : Str) : (Split '/' s).length < 2 ↔ '/' ∉ s := by
  rw [Split_length, ← List.count_eq_zero]
  omega

theorem foldl_walkFn (entries : List WalkEntry) (files : List Str) :
    entries.foldl walkFn files =
      files ++ (entries.filter fun e => !e.IsDir && HasSuffix e.Name ".sql.go".toList).map
        WalkEntry.path := by
  induction entries generalizing files with
  | nil => simp
  | cons e rest ih =>
    rw [List.foldl_cons, ih]
    unfold walkFn
    generalize ".sql.go".toList = suffix
    cases hd : e.IsDir <;> cases hs : HasSuffix e.Name suffix <;>
      simp [hd, hs]

theorem fileLoop_eq (files : List Str) :
    fileLoop files =
      (files.filter fun file => decide ('/' ∈ file)).map
        fun file => (file, (Split '/' file).getLastD []) := by
  induction files with
  | nil => rfl
  | cons file rest ih =>
    by_cases h : '/' ∈ file
    · have h2 : ¬ (Split '/' file).length < 2 := fun hh => (Split_length_lt_two file).1 hh h
      simp [fileLoop, h, h2, ih]
    · have h2 : (Split '/' file).length < 2 := (Split_length_lt_two file).2 h
      simp [fileLoop, h, h2, ih]

theorem exprToString_not_mem (c : Char) (hp : c ∉ ".*[]map".toList)
    (hk : ∀ kind : OtherExpr, c ∉ kind.typeName) (e : Expr)
    (h : ∀ name ∈ identsOf e, c ∉ name) : c ∉ exprToString e := by
  have hdot : c ∉ ".".toList := fun hh => hp (by
    have : c = '.' := by simpa using hh
    rw [this]; decide)
  have hstar : c ∉ "*".toList := fun hh => hp (by
    have : c = '*' := by simpa using hh
    rw [this]; decide)
  have hsl : c ∉ "[]".toList := fun hh => hp (by
    have : c = '[' ∨ c = ']' := by simpa using hh
    rcases this with h1 | h1 <;> (rw [h1]; decide))
  have hmap : c ∉ "map[".toList := fun hh => hp (by
    have : c = 'm' ∨ c = 'a' ∨ c = 'p' ∨ c = '[' := by simpa using hh
    rcases this with h1 | h1 | h1 | h1 <;> (rw [h1]; decide))
  have hrb : c ∉ "]".toList := fun hh => hp (by
    have : c = ']' := by simpa using hh
    rw [this]; decide)
  have hell : c ∉ "...".toList := fun hh => hp (by
    have : c = '.' := by simpa using hh
    rw [this]; decide)
  induction e with
  | Ident name => exact h name (by simp [identsOf])
  | SelectorExpr x sel ih =>
    simp only [exprToString, List.mem_append, not_or]
    exact ⟨⟨ih (fun n hn => h n (by simp [identsOf, hn])), hdot⟩, h sel (by simp [identsOf])⟩
  | StarExpr x ih =>
    simp only [exprToString, List.mem_append, not_or]
    exact ⟨hstar, ih (fun n hn => h n (by simpa [identsOf] using hn))⟩
  | ArrayType hasLen elt ih =>
    simp only [exprToString, List.mem_append, not_or]
    exact ⟨hsl, ih (fun n hn => h n (by simpa [identsOf] using hn))⟩
  | MapType key value ihk ihv =>
    simp only [exprToString, List.mem_append, not_or]
    exact ⟨⟨⟨hmap, ihk (fun n hn => h n (by simp [identsOf, hn]))⟩, hrb⟩,
      ihv (fun n hn => h n (by simp [identsOf, hn]))⟩
  | Ellipsis elt ih =>
    simp only [exprToString, List.mem_append, not_or]
    exact ⟨hell, ih (fun n hn => h n (by simpa [identsOf] using hn))⟩
  | Other kind => exact hk kind

theorem exprToString_no_space (e : Expr) (h : ∀ name ∈ identsOf e, ' ' ∉ name) :
    ' ' ∉ exprToString e :=
  exprToString_not_mem ' ' (by decide) (fun kind => by cases kind <;> decide) e h

theorem exprToString_no_brace (e : Expr) (h : ∀ name ∈ identsOf e, '\x7b' ∉ name) :
    '\x7b' ∉ exprToString e :=
  exprToString_not_mem '\x7b' (by decide) (fun kind => by cases kind <;> decide) e h

theorem collectMethods_eq (decls : List Decl) :
    collectMethods decls = ((funcDecls decls).filter isQueriesMethod).map buildMethod := by
  rw [collectMethods, methodsLoop_eq, List.nil_append]

theorem generateFile_text (decls : List Decl) :
    (generateFile decls).text = renderWrapper (collectMethods decls) :=
  execTemplate_wrapper ⟨[], "sqlc".toList, collectMethods decls⟩

theorem collectResults_firstResult_cons (field : Field) (rest : List Field) :
    (collectResults (some (field :: rest))).firstResult = fixName (exprToString field.Typ) := by
  simp only [collectResults, resultLoop, resultLoop_firstResult_succ, if_true]

theorem prefix_Join_cons (sep a : Str) (rest : List Str) : a <+: Join sep (a :: rest) := by
  cases rest with
  | nil => exact List.prefix_refl a
  | cons b rest =>
    rw [Join, List.append_assoc]
    exact List.prefix_append _ _

theorem entryName_append (name rest : Str) (h : ' ' ∉ name) :
    entryName (name ++ " ".toList ++ rest) = name := by
  induction name with
  | nil => rfl
  | cons c name ih =>
    simp only [List.mem_cons, not_or] at h
    have hc : c ≠ ' ' := fun e => h.1 e.symm
    have ih2 := ih h.2
    unfold entryName at ih2 ⊢
    simp only [List.cons_append, List.takeWhile_cons, hc, ne_eq, not_false_eq_true,
      decide_True, if_true, ih2]

theorem declaredParams_fst (params : List Field) :
    (declaredParams params).map Prod.fst = declaredNames params := by
  induction params with
  | nil => rfl
  | cons field rest ih =>
    simp only [declaredParams, declaredNames, List.map_append, List.map_map, ih]
    congr 1
    induction field.Names with
    | nil => rfl
    | cons n ns ihn => simp only [List.map_cons, Function.comp_apply, ihn]

theorem declaredParams_snd (params : List Field) :
    ∀ p ∈ declaredParams params, ∃ field ∈ params, p.2 = exprToString field.Typ := by
  induction params with
  | nil => simp [declaredParams]
  | cons field rest ih =>
    intro p hp
    simp only [declaredParams, List.mem_append, List.mem_map] at hp
    rcases hp with ⟨n, _, rfl⟩ | hp
    · exact ⟨field, List.mem_cons_self _ _, rfl⟩
    · obtain ⟨f, hf, hpf⟩ := ih p hp
      exact ⟨f, List.mem_cons_of_mem _ hf, hpf⟩

theorem entryName_fixed (l : List (Str × Str)) (h : ∀ p ∈ l, ' ' ∉ p.1 ∧ ' ' ∉ p.2) :
    ((l.map fun p => p.1 ++ " ".toList ++ p.2).map fixName).map entryName = l.map Prod.fst := by
  induction l with
  | nil => rfl
  | cons p rest ih =>
    have hp := h p (List.mem_cons_self _ _)
    have ih2 := ih (fun q hq => h q (List.mem_cons_of_mem _ hq))
    simp only [List.map_cons, ih2, fixName_two_tokens p.1 p.2 hp.1 hp.2,
      entryName_append p.1 _ hp.1]

theorem entryName_fixParams (l : List (Str × Str)) (h : ∀ p ∈ l, ' ' ∉ p.1 ∧ ' ' ∉ p.2) :
    (fixParams 0 (l.map fun p => p.1 ++ " ".toList ++ p.2)).map entryName =
      l.map Prod.fst := by
  cases l with
  | nil => rfl
  | cons p rest =>
    have hp := h p (List.mem_cons_self _ _)
    have hr := entryName_fixed rest (fun q hq => h q (List.mem_cons_of_mem _ hq))
    simp only [List.map_cons, fixParams_zero_cons, hr, entryName_append p.1 _ hp.1]

theorem RemoveAll_append (a b : Str) (h : ¬ "[]".toList <:+: a) :
    RemoveAll '[' ']' (a ++ "[]".toList ++ b) = a ++ RemoveAll '[' ']' b := by
  have hlit : "[]".toList = ['[', ']'] := rfl
  rw [hlit] at h ⊢
  induction a with
  | nil => simp [RemoveAll]
  | cons c a ih =>
    have h2 : ¬ ['[', ']'] <:+: a := fun hi => h (List.infix_cons hi)
    have ih2 := ih h2
    cases a with
    | nil =>
      have hne : ¬ (c = '[' ∧ '[' = ']') := fun hh => absurd hh.2 (by decide)
      simp only [List.nil_append, List.cons_append] at ih2 ⊢
      rw [RemoveAll, if_neg hne, ih2]
    | cons d rest =>
      have hne : ¬ (c = '[' ∧ d = ']') := by
        rintro ⟨rfl, rfl⟩
        exact h ⟨[], rest, rfl⟩
      simp only [List.cons_append] at ih2 ⊢
      rw [RemoveAll, if_neg hne, ih2]

/-! ## Inputs used below -/

/-- The type `context.Context`. -/
def contextType : Expr := .SelectorExpr (.Ident "context".toList) "Context".toList

/-- The receiver list `(q *Queries)`. -/
def queriesRecv : Option (List Field) :=
  some [⟨["q".toList], .StarExpr (.Ident "Queries".toList)⟩]

/-- The declaration `func (q *Queries) GetServerTime(ctx context.Context)`. -/
def getServerTime : FuncDecl :=
  { Recv := queriesRecv
    Name := "GetServerTime".toList
    Params := [⟨["ctx".toList], contextType⟩]
    Results := none }

/-- The declaration
`func (q *Queries) DeleteUser(ctx context.Context, id int64) error`. -/
def deleteUser : FuncDecl :=
  { Recv := queriesRecv
    Name := "DeleteUser".toList
    Params := [⟨["ctx".toList], contextType⟩, ⟨["id".toList], .Ident "int64".toList⟩]
    Results := some [⟨[], .Ident "error".toList⟩] }

/-- The declaration
`func (q *Queries) GetUser(c context.Context, id int64) (User, error)`. -/
def getUserC : FuncDecl :=
  { Recv := queriesRecv
    Name := "GetUser".toList
    Params := [⟨["c".toList], contextType⟩, ⟨["id".toList], .Ident "int64".toList⟩]
    Results := some [⟨[], .Ident "User".toList⟩, ⟨[], .Ident "error".toList⟩] }

/-- The declaration
`func (q *Queries) ListOrders(ctx context.Context, userID int64) ([]Order, error)`. -/
def listOrders : FuncDecl :=
  { Recv := queriesRecv
    Name := "ListOrders".toList
    Params := [⟨["ctx".toList], contextType⟩, ⟨["userID".toList], .Ident "int64".toList⟩]
    Results := some [⟨[], .ArrayType false (.Ident "Order".toList)⟩, ⟨[], .Ident "error".toList⟩] }

/-- The declaration
`func (q *Queries) ListOrders(ctx context.Context, userID UserID) Page`: the
name and the parameter names of `listOrders`, with other types. -/
def listOrdersAlt : FuncDecl :=
  { Recv := queriesRecv
    Name := "ListOrders".toList
    Params := [⟨["ctx".toList], contextType⟩,
      ⟨["userID".toList], .Ident "UserID".toList⟩]
    Results := some [⟨[], .Ident "Page".toList⟩] }

/-- The declaration
`func (q *Queries) GetPair(context.Context, int64) (a, b int64, err error)`. -/
def getPair : FuncDecl :=
  { Recv := queriesRecv
    Name := "GetPair".toList
    Params := [⟨[], contextType⟩, ⟨[], .Ident "int64".toList⟩]
    Results := some [⟨["a".toList, "b".toList], .Ident "int64".toList⟩,
      ⟨["err".toList], .Ident "error".toList⟩] }

/-- The declaration
`func (q *Queries) GetUserByID(ctx Context, id int64) (User, error)`. -/
def scenarioA : FuncDecl :=
  { Recv := queriesRecv
    Name := "GetUserByID".toList
    Params := [⟨["ctx".toList], .Ident "Context".toList⟩, ⟨["id".toList], .Ident "int64".toList⟩]
    Results := some [⟨[], .Ident "User".toList⟩, ⟨[], .Ident "error".toList⟩] }

/-- The declaration `func NewQueries(db DBTX) *Queries`, a plain function. -/
def newQueries : FuncDecl :=
  { Recv := none
    Name := "NewQueries".toList
    Params := [⟨["db".toList], .Ident "DBTX".toList⟩]
    Results := some [⟨[], .StarExpr (.Ident "Queries".toList)⟩] }

/-- The declaration `func (q Queries) GetName(ctx context.Context) (string, error)`,
with a value receiver. -/
def valueReceiver : FuncDecl :=
  { Recv := some [⟨["q".toList], .Ident "Queries".toList⟩]
    Name := "GetName".toList
    Params := [⟨["ctx".toList], contextType⟩]
    Results := some [⟨[], .Ident "string".toList⟩, ⟨[], .Ident "error".toList⟩] }

/-- The declaration `func (s *Store) GetName(ctx context.Context) (string, error)`,
a method of another type. -/
def otherReceiver : FuncDecl :=
  { Recv := some [⟨["s".toList], .StarExpr (.Ident "Store".toList)⟩]
    Name := "GetName".toList
    Params := [⟨["ctx".toList], contextType⟩]
    Results := some [⟨[], .Ident "string".toList⟩, ⟨[], .Ident "error".toList⟩] }

/-- The declaration
`func (q *Queries) PutValue(ctx context.Context, v interface{}) interface{}`. -/
def putValue : FuncDecl :=
  { Recv := queriesRecv
    Name := "PutValue".toList
    Params := [⟨["ctx".toList], contextType⟩, ⟨["v".toList], .Other .InterfaceType⟩]
    Results := some [⟨[], .Other .InterfaceType⟩] }

/-- The declaration `type User struct { ID int64; Name string }`. -/
def userStruct : Decl :=
  .GenDecl
    { Tok := .TYPE
      Specs := [.TypeSpec "User".toList (.Other .StructType)
        [⟨["ID".toList], .Ident "int64".toList⟩, ⟨["Name".toList], .Ident "string".toList⟩]] }

/-- A file: the struct `User`, `NewQueries`, `ListOrders`, the two
`GetName` that are not methods of `*Queries`, and `DeleteUser`. -/
def sampleFile : List Decl :=
  [ userStruct, .FuncDecl newQueries, .FuncDecl listOrders, .FuncDecl valueReceiver,
    .FuncDecl otherReceiver, .FuncDecl deleteUser ]

/-- The same function declarations, with no type declaration among them. -/
def sampleFileNoTypes : List Decl :=
  [ .FuncDecl newQueries, .FuncDecl listOrders, .FuncDecl valueReceiver,
    .FuncDecl otherReceiver, .FuncDecl deleteUser ]

/-- The entry of a file `users.sql.go` visited under the path `users.sql.go`,
as when the input directory is `.`. -/
def usersEntry : WalkEntry :=
  { path := "users.sql.go".toList, Name := "users.sql.go".toList, IsDir := false }

/-- The entry of a file `users.sql.go` visited under the path
`db/users.sql.go`. -/
def nestedEntry : WalkEntry :=
  { path := "db/users.sql.go".toList, Name := "users.sql.go".toList, IsDir := false }

/-- The type `map[string][]models.Foo`. -/
def mapOfSlices : Expr :=
  .MapType (.Ident "string".toList)
    (.ArrayType false (.SelectorExpr (.Ident "models".toList) "Foo".toList))

/-! ## The claims -/

/-- Claim C1: the `UseCache` flag of a method is true exactly when its name
starts with none of `Set`, `Insert`, `Update`, `SoftDelete`, `Create`,
`Delete` (a case-sensitive prefix test); whatever the parameters and results
are, it is false for a name that starts with one of them. -/
theorem C1_useCache_iff_no_mutation_prefix :
    (∀ fn : FuncDecl, (buildMethod fn).UseCache = true ↔
      ∀ p ∈ ["Set".toList, "Insert".toList, "Update".toList, "SoftDelete".toList,
        "Create".toList, "Delete".toList], ¬ p <+: fn.Name) ∧
    (∀ fn : FuncDecl, ∀ p ∈ ["Set".toList, "Insert".toList, "Update".toList,
        "SoftDelete".toList, "Create".toList, "Delete".toList],
      p <+: fn.Name → (buildMethod fn).UseCache = false) := by
  refine ⟨useCache_iff, ?_⟩
  intro fn p hp hpre
  rw [← Bool.not_eq_true, useCache_iff]
  exact fun h => h p hp hpre

/-- Witness of C1 at `DeleteUser`, which starts with `Delete`. -/
theorem C1_witness :
    "Delete".toList <+: deleteUser.Name ∧ (buildMethod deleteUser).UseCache = false :=
  ⟨(HasPrefix_iff _ _).1 (by decide),
    C1_useCache_iff_no_mutation_prefix.2 deleteUser "Delete".toList (by decide)
      ((HasPrefix_iff _ _).1 (by decide))⟩

/-- Counterexample to C2 as stated: `GetServerTime(ctx context.Context)`
declares no result and is a method of `*Queries`, yet it gets
`UseCache = true` and its wrapper contains the cache read and the cache
write. -/
theorem C2_counterexample :
    isQueriesMethod getServerTime = true ∧
    declaredResults getServerTime.Results = [] ∧
    (buildMethod getServerTime).UseCache = true ∧
    "val, err := c.KV.Get(ctx, key)".toList <:+: renderMethod (buildMethod getServerTime) ∧
    "_ = c.KV.Set(ctx, key, bytes)".toList <:+: renderMethod (buildMethod getServerTime) :=
  ⟨by decide, by decide, by decide, (Contains_iff _ _).1 (by decide),
    (Contains_iff _ _).1 (by decide)⟩

/-- Claim C2, amended: for a method that declares no result, `FirstResult`
is `interface{}` and `ResultsStr` is empty, and the cache code depends on
the name alone: when the name starts with none of the six mutation prefixes
the wrapper is signature, cache read, delegation, cache write, return; when
it starts with one of them the wrapper is signature, delegation, return. -/
theorem C2_zero_results_cached_by_name (fn : FuncDecl)
    (h0 : declaredResults fn.Results = []) :
    (buildMethod fn).FirstResult = "interface\x7b\x7d".toList ∧
    (buildMethod fn).ResultsStr = [] ∧
    ((∀ p ∈ ["Set".toList, "Insert".toList, "Update".toList, "SoftDelete".toList,
        "Create".toList, "Delete".toList], ¬ p <+: fn.Name) →
      renderMethod (buildMethod fn) =
        signatureText (buildMethod fn) ++ cacheReadText (buildMethod fn) ++
          delegateText (buildMethod fn) ++ cacheWriteText ++ returnText) ∧
    ((∃ p ∈ ["Set".toList, "Insert".toList, "Update".toList, "SoftDelete".toList,
        "Create".toList, "Delete".toList], p <+: fn.Name) →
      renderMethod (buildMethod fn) =
        signatureText (buildMethod fn) ++ delegateText (buildMethod fn) ++ returnText) := by
  refine ⟨collectResults_firstResult_of_empty fn.Results h0, ?_, ?_, ?_⟩
  · have h : (buildMethod fn).ResultsStr =
        Join ", ".toList (fixResults (collectResults fn.Results).resultStrs) := rfl
    rw [h, collectResults_resultStrs, h0]
    rfl
  · intro hp
    have hu := (useCache_iff fn).2 hp
    simp only [renderMethod, hu, if_true]
  · rintro ⟨p, hp, hpre⟩
    have hu : (buildMethod fn).UseCache = false := by
      rw [← Bool.not_eq_true, useCache_iff]
      exact fun h => h p hp hpre
    simp only [renderMethod, hu, Bool.false_eq_true, if_false, List.append_nil]

/-- Witness of the amended C2 at `GetServerTime(ctx context.Context)`. -/
theorem C2_witness :
    declaredResults getServerTime.Results = [] ∧
    (buildMethod getServerTime).FirstResult = "interface\x7b\x7d".toList ∧
    (buildMethod getServerTime).ResultsStr = [] :=
  ⟨by decide, (C2_zero_results_cached_by_name getServerTime (by decide)).1,
    (C2_zero_results_cached_by_name getServerTime (by decide)).2.1⟩

/-- Claim C3: with `p1..pk` the declared parameter names other than `ctx`,
in order, `KeyFormat` is `cache:` + name + `:` + k copies of `%v` joined by
`:` and `KeyArgs` is `p1..pk` joined by `, `; so two methods with the same
name and the same names other than `ctx` have the same `KeyFormat` and
`KeyArgs`, whatever their parameter and result types. -/
theorem C3_key_template :
    (∀ fn : FuncDecl,
      (buildMethod fn).KeyFormat =
        "cache:".toList ++ fn.Name ++ ":".toList ++
          Join ":".toList
            (List.replicate
              ((declaredNames fn.Params).filter (fun name => name ≠ "ctx".toList)).length
              "%v".toList) ∧
      (buildMethod fn).KeyArgs =
        Join ", ".toList
          ((declaredNames fn.Params).filter (fun name => name ≠ "ctx".toList))) ∧
    (∀ fn1 fn2 : FuncDecl, fn1.Name = fn2.Name →
      (declaredNames fn1.Params).filter (fun name => name ≠ "ctx".toList) =
        (declaredNames fn2.Params).filter (fun name => name ≠ "ctx".toList) →
      (buildMethod fn1).KeyFormat = (buildMethod fn2).KeyFormat ∧
      (buildMethod fn1).KeyArgs = (buildMethod fn2).KeyArgs) := by
  refine ⟨fun fn => ⟨keyFormat_eq fn, keyArgs_eq fn⟩, ?_⟩
  intro fn1 fn2 hname hargs
  rw [keyFormat_eq, keyFormat_eq, keyArgs_eq, keyArgs_eq, hname, hargs]
  exact ⟨rfl, rfl⟩

/-- Witness of C3: `ListOrders(ctx context.Context, userID int64) ([]Order, error)`
and `ListOrders(ctx context.Context, userID UserID) Page` have the same key
template, `cache:ListOrders:%v` with argument `userID`. -/
theorem C3_witness :
    (buildMethod listOrders).KeyFormat = "cache:ListOrders:%v".toList ∧
    (buildMethod listOrders).KeyArgs = "userID".toList ∧
    (buildMethod listOrders).KeyFormat = (buildMethod listOrdersAlt).KeyFormat ∧
    (buildMethod listOrders).KeyArgs = (buildMethod listOrdersAlt).KeyArgs :=
  ⟨by decide, by decide, C3_key_template.2 listOrders listOrdersAlt (by decide) (by decide)⟩

/-- Counterexample to C4 as stated: in
`GetUser(c context.Context, id int64) (User, error)` the leading parameter
`c` is among the key arguments, `KeyArgs` is `c, id` and `KeyFormat` holds
two `%v`, not one. -/
theorem C4_counterexample :
    declaredNames getUserC.Params = ["c".toList, "id".toList] ∧
    "c".toList ∈ (collectParams getUserC.Params).keyArgs ∧
    (buildMethod getUserC).KeyArgs = "c, id".toList ∧
    (buildMethod getUserC).KeyFormat = "cache:GetUser:%v:%v".toList ∧
    countVerbs (buildMethod getUserC).KeyFormat = 2 :=
  ⟨by decide, by decide, by decide, by decide, by decide⟩

/-- Claim C4, amended: the parameters left out of the key template are those
named `ctx`, by name and not by position. For a method whose leading
parameter is named `ctx` and which has no other parameter of that name (the
method name holding no `%`), `ctx` is not among the key arguments, the key
arguments are exactly the names at positions 1 and later, in order, and the
number of `%v` in `KeyFormat` is the number of parameters minus one. -/
theorem C4_ctx_excluded_by_name (fn : FuncDecl) (rest : List Str)
    (hn : declaredNames fn.Params = "ctx".toList :: rest)
    (hr : "ctx".toList ∉ rest) (hname : '%' ∉ fn.Name) :
    "ctx".toList ∉ (collectParams fn.Params).keyArgs ∧
    (collectParams fn.Params).keyArgs = (declaredNames fn.Params).tail ∧
    (buildMethod fn).KeyArgs = Join ", ".toList (declaredNames fn.Params).tail ∧
    countVerbs (buildMethod fn).KeyFormat = (declaredNames fn.Params).length - 1 := by
  have hf : (declaredNames fn.Params).filter (fun name => name ≠ "ctx".toList) = rest := by
    rw [hn]
    generalize "ctx".toList = ctx at hr
    rw [List.filter_cons_of_neg (by simp)]
    exact List.filter_eq_self.2 (fun a ha => by
      have : a ≠ ctx := fun e => hr (e ▸ ha)
      simpa using this)
  have hk : (collectParams fn.Params).keyArgs = rest := by
    rw [collectParams_eq]
    exact hf
  refine ⟨?_, ?_, ?_, ?_⟩
  · rw [hk]
    exact hr
  · rw [hk, hn]
    rfl
  · rw [keyArgs_eq, hf, hn]
    rfl
  · rw [countVerbs_keyFormat fn hname, hf, hn]
    rfl

/-- Witness of the amended C4 at
`ListOrders(ctx context.Context, userID int64) ([]Order, error)`. -/
theorem C4_witness :
    declaredNames listOrders.Params = "ctx".toList :: ["userID".toList] ∧
    (collectParams listOrders.Params).keyArgs = ["userID".toList] ∧
    countVerbs (buildMethod listOrders).KeyFormat = 1 :=
  ⟨by decide,
    (C4_ctx_excluded_by_name listOrders ["userID".toList] (by decide) (by decide)
      (by decide)).2.1,
    (C4_ctx_excluded_by_name listOrders ["userID".toList] (by decide) (by decide)
      (by decide)).2.2.2⟩

/-- Claim C5: a type name without space and without `[]` that is not in
`GoTypes` is qualified as `models.` + name, and its slice form `[]` + name
as `[]models.` + name. -/
theorem C5_models_qualification (n : Str) (hs : ' ' ∉ n) (hb : ¬ "[]".toList <:+: n)
    (hg : n ∉ GoTypes) :
    fixName n = "models.".toList ++ n ∧
    fixName ("[]".toList ++ n) = "[]models.".toList ++ n := by
  constructor
  · rw [fixName_one_token n hs, if_neg hg, if_neg hb]
  · have hs2 : ' ' ∉ "[]".toList ++ n := by
      have h1 : ' ' ∉ "[]".toList := by decide
      simp only [List.mem_append, not_or]
      exact ⟨h1, hs⟩
    have hg2 : "[]".toList ++ n ∉ GoTypes := fun h => GoTypes_head _ h rfl
    have hb2 : "[]".toList <:+: "[]".toList ++ n := (List.prefix_append _ _).isInfix
    have hr : RemoveAll '[' ']' ("[]".toList ++ n) = n := by
      have h1 : RemoveAll '[' ']' ("[]".toList ++ n) = RemoveAll '[' ']' n := by
        show RemoveAll '[' ']' ('[' :: ']' :: n) = RemoveAll '[' ']' n
        simp [RemoveAll]
      rw [h1]
      exact RemoveAll_of_not_infix '[' ']' n hb
    rw [fixName_one_token _ hs2, if_neg hg2, if_pos hb2, hr]

/-- Witness of C5: `Order` gives `models.Order` and `[]Order` gives
`[]models.Order`. -/
theorem C5_witness :
    fixName "Order".toList = "models.Order".toList ∧
    fixName "[]Order".toList = "[]models.Order".toList :=
  C5_models_qualification "Order".toList (by decide)
    (fun h => absurd ((Contains_iff _ _).2 h) (by decide)) (by decide)

/-- Claim C6: a type in `GoTypes` is emitted unchanged, alone and as the
second token after a parameter name without space. -/
theorem C6_allowlisted_unchanged (t : Str) (ht : t ∈ GoTypes) :
    fixName t = t ∧
    ∀ p : Str, ' ' ∉ p → fixName (p ++ " ".toList ++ t) = p ++ " ".toList ++ t := by
  have hs := GoTypes_no_space t ht
  have h1 : fixName t = t := by
    rw [fixName_one_token t hs, if_pos ht]
  refine ⟨h1, ?_⟩
  intro p hp
  rw [fixName_two_tokens p t hp hs, h1]

/-- Witness of C6 at the type `int64` and the parameter `id int64`. -/
theorem C6_witness :
    "int64".toList ∈ GoTypes ∧ fixName "int64".toList = "int64".toList ∧
    fixName ("id".toList ++ " ".toList ++ "int64".toList) =
      "id".toList ++ " ".toList ++ "int64".toList :=
  ⟨by decide, (C6_allowlisted_unchanged "int64".toList (by decide)).1,
    (C6_allowlisted_unchanged "int64".toList (by decide)).2 "id".toList (by decide)⟩

/-- Claim C7, as the code has it: the allowlist test is made on the whole
token, before the slice marker is looked at, so the slice form of every
allowlisted type is qualified: `[]byte` gives `[]models.byte`, `[]int64`
gives `[]models.int64`, and so for each entry of `GoTypes`; none is emitted
unchanged. -/
theorem C7_slice_of_allowlisted_qualified :
    fixName "[]byte".toList = "[]models.byte".toList ∧
    fixName "[]int64".toList = "[]models.int64".toList ∧
    (∀ t ∈ GoTypes, fixName ("[]".toList ++ t) = "[]models.".toList ++ t) ∧
    (∀ t ∈ GoTypes, fixName ("[]".toList ++ t) ≠ "[]".toList ++ t) := by
  decide

/-- Claim C8: for `a` and `b` without space, `fixName (a + " " + b)` is
`a + " " + fixName b`: the second token alone is qualified and the first is
put back unchanged. -/
theorem C8_second_token_only (a b : Str) (ha : ' ' ∉ a) (hb : ' ' ∉ b) :
    fixName (a ++ " ".toList ++ b) = a ++ " ".toList ++ fixName b :=
  fixName_two_tokens a b ha hb

/-- Witness of C8 at `arg []Foo`, which gives `arg []models.Foo`. -/
theorem C8_witness :
    fixName ("arg".toList ++ " ".toList ++ "[]Foo".toList) =
      "arg".toList ++ " ".toList ++ fixName "[]Foo".toList ∧
    fixName "arg []Foo".toList = "arg []models.Foo".toList :=
  ⟨C8_second_token_only "arg".toList "[]Foo".toList (by decide) (by decide), by decide⟩

/-- Claim C9: `ParamsStr` is the `, `-join of the first declared parameter
`n0 t0` as it is, followed by `fixName (ni + " " + ti)` for every later
one, and `ResultsStr` is the `, `-join of `fixName rj` over the rendered
result types, in declared order. -/
theorem C9_params_results_qualified (fn : FuncDecl) :
    (buildMethod fn).ParamsStr =
      Join ", ".toList
        (match declaredParams fn.Params with
         | [] => []
         | p0 :: rest =>
           (p0.1 ++ " ".toList ++ p0.2) ::
             rest.map (fun p => fixName (p.1 ++ " ".toList ++ p.2))) ∧
    (buildMethod fn).ResultsStr =
      Join ", ".toList ((declaredResults fn.Results).map fixName) := by
  constructor
  · have h : (buildMethod fn).ParamsStr =
        Join ", ".toList (fixParams 0 (collectParams fn.Params).paramStrs) := rfl
    rw [h, collectParams_eq]
    cases declaredParams fn.Params with
    | nil => rfl
    | cons p0 rest =>
      simp only [List.map_cons, fixParams_zero_cons, List.map_map, Function.comp_def]
  · have h : (buildMethod fn).ResultsStr =
        Join ", ".toList (fixResults (collectResults fn.Results).resultStrs) := rfl
    rw [h, collectResults_resultStrs, fixResults_eq]

/-- Claim C10, as the code has it: for
`GetPair(context.Context, int64) (a, b int64, err error)`, which declares two
parameters and three results, the parameter loop appends nothing (it ranges
over the names of a field, and these fields have none) and the result loop
appends one entry for each field, not for each name: `ParamsStr` is empty
and `ResultsStr` is `int64, error`, two entries. -/
theorem C10_signature_shape_not_kept :
    isQueriesMethod getPair = true ∧
    NumFields getPair.Params = 2 ∧
    (fixParams 0 (collectParams getPair.Params).paramStrs).length = 0 ∧
    (buildMethod getPair).ParamsStr = [] ∧
    NumFields (getPair.Results.getD []) = 3 ∧
    (fixResults (collectResults getPair.Results).resultStrs).length = 2 ∧
    (buildMethod getPair).ResultsStr = "int64, error".toList := by
  decide


/-- Claim C11: the range body of `wrapperTemplate`, executed on a method
`m`, gives the signature line, then the cache read only if `m.UseCache`,
then the delegation to `c.DB`, then the cache write only if `m.UseCache`,
then the return; with `m.UseCache` false it is signature, delegation and
return, with neither cache block; the whole template gives the header, the
methods one after the other, and two line ends. -/
theorem C11_rendered_method :
    (∀ m : Method, execMethodNodes m wrapperRangeBody =
      signatureText m ++ (if m.UseCache then cacheReadText m else []) ++ delegateText m ++
        (if m.UseCache then cacheWriteText else []) ++ returnText) ∧
    (∀ m : Method, m.UseCache = true → execMethodNodes m wrapperRangeBody =
      signatureText m ++ cacheReadText m ++ delegateText m ++ cacheWriteText ++ returnText) ∧
    (∀ m : Method, m.UseCache = false → execMethodNodes m wrapperRangeBody =
      signatureText m ++ delegateText m ++ returnText) ∧
    (∀ data : TemplateData, execTemplate data wrapperTemplate =
      templateHeader ++ renderMethods data.Methods ++ "\n\n".toList) := by
  refine ⟨fun m => execMethodNodes_wrapper m, ?_, ?_, fun data => execTemplate_wrapper data⟩
  · intro m h
    rw [execMethodNodes_wrapper, renderMethod, h]
    rfl
  · intro m h
    rw [execMethodNodes_wrapper, renderMethod, h]
    simp only [Bool.false_eq_true, if_false, List.append_nil]

/-- Witness of C11: the wrapper of `DeleteUser`, without cache code, and the
wrapper of `GetUserByID`, with it, as texts. -/
theorem C11_witness :
    execMethodNodes (buildMethod deleteUser) wrapperRangeBody =
      "\nfunc (c *CachedQueries) DeleteUser(ctx context.Context, id int64) (error) \x7b \n\tresult, err := c.DB.DeleteUser(ctx, id)\t\n\t\n\treturn result, err\n\x7d\n".toList ∧
    execMethodNodes (buildMethod scenarioA) wrapperRangeBody =
      "\nfunc (c *CachedQueries) GetUserByID(ctx Context, id int64) (models.User, error) \x7b \t\n\tkey := fmt.Sprintf(\"cache:GetUserByID:%v\", id)\n\tval, err := c.KV.Get(ctx, key)\n\tif err == nil && val != nil \x7b\n\t\tvar cached models.User\n\t\tif err := json.Unmarshal(val, &cached); err == nil \x7b\n\t\t\treturn cached, nil\n\t\t\x7d\n\t\x7d\n\t\n\tresult, err := c.DB.GetUserByID(ctx, id)\t\n\t\n\tif err == nil \x7b\n\t\tbytes, _ := json.Marshal(result)\n\t\t_ = c.KV.Set(ctx, key, bytes)\n\t\x7d\n\t\n\treturn result, err\n\x7d\n".toList :=
  ⟨(C11_rendered_method.2.2.1 (buildMethod deleteUser) (by decide)).trans (by decide),
    (C11_rendered_method.2.1 (buildMethod scenarioA) (by decide)).trans (by decide)⟩

/-- Claim C12: the methods of a file are the function declarations whose
receiver list starts with a field of type `*Queries`, each giving one
method, in source order; a declaration with no receiver, a value receiver or
a receiver of another type gives none; the wrapper text holds the methods in
that order. -/
theorem C12_methods_in_source_order :
    (∀ decls : List Decl, (generateFile decls).methods =
      ((funcDecls decls).filter isQueriesMethod).map buildMethod) ∧
    (∀ fn : FuncDecl, isQueriesMethod fn = true ↔
      ∃ names rest,
        fn.Recv = some (⟨names, .StarExpr (.Ident "Queries".toList)⟩ :: rest)) ∧
    (∀ decls : List Decl, (generateFile decls).text =
      templateHeader ++
        renderMethods (((funcDecls decls).filter isQueriesMethod).map buildMethod) ++
        "\n\n".toList) := by
  refine ⟨fun decls => collectMethods_eq decls, isQueriesMethod_iff, ?_⟩
  intro decls
  rw [generateFile_text, collectMethods_eq, renderWrapper]

/-- Witness of C12: of the six declarations of `sampleFile` only
`ListOrders` and `DeleteUser` are methods of `*Queries`, and they come out
in that order. -/
theorem C12_witness :
    isQueriesMethod newQueries = false ∧ isQueriesMethod valueReceiver = false ∧
    isQueriesMethod otherReceiver = false ∧
    (generateFile sampleFile).methods = [buildMethod listOrders, buildMethod deleteUser] :=
  ⟨by decide, by decide, by decide,
    (C12_methods_in_source_order.1 sampleFile).trans (by decide)⟩

/-- Claim C13: for a method with a first result, `FirstResult` is `fixName`
of the rendering of that result's type, it is the first entry of the result
list that `ResultsStr` joins, and `ResultsStr` starts with it; for a method
with no result it is `interface{}`. -/
theorem C13_first_result (fn : FuncDecl) :
    (∀ field rest, fn.Results = some (field :: rest) →
      (buildMethod fn).FirstResult = fixName (exprToString field.Typ) ∧
      (fixResults (collectResults fn.Results).resultStrs).head? =
        some (buildMethod fn).FirstResult ∧
      (buildMethod fn).ResultsStr =
        Join ", ".toList (fixResults (collectResults fn.Results).resultStrs) ∧
      (buildMethod fn).FirstResult <+: (buildMethod fn).ResultsStr) ∧
    (declaredResults fn.Results = [] →
      (buildMethod fn).FirstResult = "interface\x7b\x7d".toList) := by
  constructor
  · intro field rest h
    have h1 : (buildMethod fn).FirstResult = fixName (exprToString field.Typ) := by
      show (collectResults fn.Results).firstResult = _
      rw [h, collectResults_firstResult_cons]
    have h2 : fixResults (collectResults fn.Results).resultStrs =
        fixName (exprToString field.Typ) ::
          (rest.map fun f => exprToString f.Typ).map fixName := by
      rw [collectResults_resultStrs, fixResults_eq, h]
      rfl
    have h3 : (buildMethod fn).ResultsStr =
        Join ", ".toList (fixResults (collectResults fn.Results).resultStrs) := rfl
    refine ⟨h1, ?_, h3, ?_⟩
    · rw [h2, h1]
      rfl
    · rw [h3, h2, h1]
      exact prefix_Join_cons _ _ _
  · exact collectResults_firstResult_of_empty fn.Results

/-- Witness of C13 at `ListOrders`, whose first result `[]Order` gives
`[]models.Order`, and at `GetServerTime`, which has no result. -/
theorem C13_witness :
    (buildMethod listOrders).FirstResult = "[]models.Order".toList ∧
    (buildMethod listOrders).ResultsStr = "[]models.Order, error".toList ∧
    (buildMethod listOrders).FirstResult <+: (buildMethod listOrders).ResultsStr ∧
    (buildMethod getServerTime).FirstResult = "interface\x7b\x7d".toList :=
  ⟨by decide, by decide,
    ((C13_first_result listOrders).1 ⟨[], .ArrayType false (.Ident "Order".toList)⟩
      [⟨[], .Ident "error".toList⟩] rfl).2.2.2,
    (C13_first_result getServerTime).2 (by decide)⟩

/-- Claim C14: `ArgsStr` is the `, `-join of all declared parameter names,
`ctx` included, in declared order; and when no name and no identifier of a
parameter type holds a space, the entries that `ParamsStr` joins declare
those same names in the same order. -/
theorem C14_args_in_call_order (fn : FuncDecl) :
    (buildMethod fn).ArgsStr = Join ", ".toList (declaredNames fn.Params) ∧
    (buildMethod fn).ParamsStr =
      Join ", ".toList (fixParams 0 (collectParams fn.Params).paramStrs) ∧
    ((∀ name ∈ declaredNames fn.Params, ' ' ∉ name) →
      (∀ field ∈ fn.Params, ∀ name ∈ identsOf field.Typ, ' ' ∉ name) →
      (fixParams 0 (collectParams fn.Params).paramStrs).map entryName =
        declaredNames fn.Params) := by
  refine ⟨?_, rfl, ?_⟩
  · show Join ", ".toList (collectParams fn.Params).argNames = _
    rw [collectParams_eq]
  · intro hn ht
    rw [collectParams_eq]
    show (fixParams 0 ((declaredParams fn.Params).map fun p => p.1 ++ " ".toList ++ p.2)).map
      entryName = _
    rw [entryName_fixParams, declaredParams_fst]
    intro p hp
    constructor
    · apply hn
      rw [← declaredParams_fst]
      exact List.mem_map_of_mem Prod.fst hp
    · obtain ⟨field, hf, hpf⟩ := declaredParams_snd fn.Params p hp
      rw [hpf]
      exact exprToString_no_space field.Typ (ht field hf)

/-- Witness of C14 at `ListOrders(ctx context.Context, userID int64)`. -/
theorem C14_witness :
    (buildMethod listOrders).ArgsStr = "ctx, userID".toList ∧
    (buildMethod listOrders).ParamsStr = "ctx context.Context, userID int64".toList ∧
    (fixParams 0 (collectParams listOrders.Params).paramStrs).map entryName =
      ["ctx".toList, "userID".toList] :=
  ⟨by decide, by decide, (C14_args_in_call_order listOrders).2.2 (by decide) (by decide)⟩

/-- Counterexample to C15 as stated: the file `users.sql.go` visited under
the path `users.sql.go` is not a directory and its name ends with `.sql.go`,
so the walk keeps it, and yet it is not analyzed: its path splits into fewer
than two pieces and the loop goes on to the next file. -/
theorem C15_counterexample :
    usersEntry.IsDir = false ∧ ".sql.go".toList <:+ usersEntry.Name ∧
    walkFiles [usersEntry] = [usersEntry.path] ∧
    (Split '/' usersEntry.path).length = 1 ∧
    analyzedFiles [usersEntry] = [] :=
  ⟨rfl, (HasSuffix_iff _ _).1 (by decide), by decide, by decide, by decide⟩

/-- Claim C15, amended: a path is analyzed and given a wrapper file exactly
when the walk visited it as an entry that is not a directory, whose name ends
with `.sql.go`, and whose path holds a `/`; the output name is then the last
`/`-separated piece of the path. -/
theorem C15_analyzed_iff (entries : List WalkEntry) (file : Str) :
    (file ∈ (analyzedFiles entries).map Prod.fst ↔
      ∃ e ∈ entries, e.path = file ∧ e.IsDir = false ∧ ".sql.go".toList <:+ e.Name ∧
        '/' ∈ e.path) ∧
    (∀ out ∈ analyzedFiles entries, out.2 = (Split '/' out.1).getLastD []) := by
  have hw : walkFiles entries =
      (entries.filter fun e => !e.IsDir && HasSuffix e.Name ".sql.go".toList).map
        WalkEntry.path := by
    rw [walkFiles, foldl_walkFn, List.nil_append]
  constructor
  · rw [analyzedFiles, fileLoop_eq, hw]
    simp only [List.map_map, List.mem_map, List.mem_filter, Function.comp_apply,
      Bool.and_eq_true, Bool.not_eq_true', decide_eq_true_eq, HasSuffix_iff]
    constructor
    · rintro ⟨f, ⟨⟨e, ⟨he, hd, hs⟩, rfl⟩, hsep⟩, rfl⟩
      exact ⟨e, he, rfl, hd, hs, hsep⟩
    · rintro ⟨e, he, rfl, hd, hs, hsep⟩
      exact ⟨e.path, ⟨⟨e, ⟨he, hd, hs⟩, rfl⟩, hsep⟩, rfl⟩
  · intro out hout
    rw [analyzedFiles, fileLoop_eq] at hout
    simp only [List.mem_map] at hout
    obtain ⟨f, _, rfl⟩ := hout
    rfl

/-- Witness of the amended C15: of `users.sql.go` and `db/users.sql.go` the
second alone is analyzed, under the output name `users.sql.go`. -/
theorem C15_witness :
    analyzedFiles [usersEntry, nestedEntry] =
      [("db/users.sql.go".toList, "users.sql.go".toList)] ∧
    "db/users.sql.go".toList ∈ (analyzedFiles [usersEntry, nestedEntry]).map Prod.fst :=
  ⟨by decide,
    ((C15_analyzed_iff [usersEntry, nestedEntry] "db/users.sql.go".toList).1).2
      ⟨nestedEntry, by decide, rfl, rfl, (HasSuffix_iff _ _).1 (by decide), by decide⟩⟩

/-- Claim C16: two files with the same sequence of function declarations
give the same method list and the same wrapper text, whatever type or other
declarations stand between them. -/
theorem C16_text_ignores_type_decls (decls1 decls2 : List Decl)
    (h : funcDecls decls1 = funcDecls decls2) :
    (generateFile decls1).methods = (generateFile decls2).methods ∧
    (generateFile decls1).text = (generateFile decls2).text := by
  have hm : collectMethods decls1 = collectMethods decls2 := by
    rw [collectMethods_eq, collectMethods_eq, h]
  refine ⟨hm, ?_⟩
  rw [generateFile_text, generateFile_text, hm]

/-- Witness of C16: `sampleFile` with its struct `User` and the same file
without it give different struct maps and the same wrapper text. -/
theorem C16_witness :
    (generateFile sampleFile).structs ≠ (generateFile sampleFileNoTypes).structs ∧
    (generateFile sampleFile).methods = (generateFile sampleFileNoTypes).methods ∧
    (generateFile sampleFile).text = (generateFile sampleFileNoTypes).text :=
  ⟨by decide, C16_text_ignores_type_decls sampleFile sampleFileNoTypes (by decide)⟩

/-- Claim C17: scenario A. The declaration
`func (q *Queries) GetUserByID(ctx Context, id int64) (User, error)` is a
method of `*Queries` and gives the `Method` with `UseCache` true, `KeyFormat`
`cache:GetUserByID:%v`, `KeyArgs` `id`, `FirstResult` `models.User`,
`ParamsStr` `ctx Context, id int64`, `ArgsStr` `ctx, id` and `ResultsStr`
`models.User, error`. -/
theorem C17_scenario_A :
    collectMethods [.FuncDecl scenarioA] =
      [ { Name := "GetUserByID".toList
          ParamsStr := "ctx Context, id int64".toList
          ArgsStr := "ctx, id".toList
          ResultsStr := "models.User, error".toList
          FirstResult := "models.User".toList
          KeyFormat := "cache:GetUserByID:%v".toList
          KeyArgs := "id".toList
          UseCache := true } ] := by
  decide

/-- Claim C18: for a string without space, outside the allowlist, that holds
`[]` anywhere, `fixName` gives `[]models.` followed by the string with its
occurrences of `[]` removed from left to right, so one leading marker
whatever their number and place: `[][]Foo` gives `[]models.Foo` and
`map[string][]Foo` gives `[]models.map[string]Foo`; `*Foo`, which holds
none, gives `models.*Foo`. -/
theorem C18_one_leading_marker :
    (∀ s : Str, ' ' ∉ s → s ∉ GoTypes → "[]".toList <:+: s →
      fixName s = "[]models.".toList ++ RemoveAll '[' ']' s) ∧
    (∀ a b : Str, ¬ "[]".toList <:+: a →
      RemoveAll '[' ']' (a ++ "[]".toList ++ b) = a ++ RemoveAll '[' ']' b) ∧
    (∀ s : Str, ¬ "[]".toList <:+: s → RemoveAll '[' ']' s = s) ∧
    fixName "[][]Foo".toList = "[]models.Foo".toList ∧
    fixName "map[string][]Foo".toList = "[]models.map[string]Foo".toList ∧
    fixName "*Foo".toList = "models.*Foo".toList := by
  refine ⟨?_, RemoveAll_append, fun s h => RemoveAll_of_not_infix '[' ']' s h, by decide,
    by decide, by decide⟩
  intro s hs hg hb
  rw [fixName_one_token s hs, if_neg hg, if_pos hb]

/-- Witness of C18 at `[]map[string][]Foo`, which holds two markers. -/
theorem C18_witness :
    fixName "[]map[string][]Foo".toList =
      "[]models.".toList ++ RemoveAll '[' ']' "[]map[string][]Foo".toList ∧
    RemoveAll '[' ']' "[]map[string][]Foo".toList = "map[string]Foo".toList :=
  ⟨C18_one_leading_marker.1 "[]map[string][]Foo".toList (by decide) (by decide)
    ((Contains_iff _ _).1 (by decide)), by decide⟩

/-- Claim C19: `exprToString` renders an identifier as its name, a selector
as `X.Sel`, a pointer as `*` + element, an array or a slice as `[]` +
element, a map as `map[` + key + `]` + value, a variadic as `...` + element,
and every other node kind as the name of its Go type, which starts with
`*ast.`; so an expression whose identifiers hold no brace never renders as
`interface{}`, and the type `interface{}` renders as `*ast.InterfaceType`,
which `fixName` turns into `models.*ast.InterfaceType`, alone and after a
parameter name. -/
theorem C19_exprToString_rendering :
    (∀ name : Str, exprToString (.Ident name) = name) ∧
    (∀ (x : Expr) (sel : Str),
      exprToString (.SelectorExpr x sel) = exprToString x ++ ".".toList ++ sel) ∧
    (∀ x : Expr, exprToString (.StarExpr x) = "*".toList ++ exprToString x) ∧
    (∀ (hasLen : Bool) (elt : Expr),
      exprToString (.ArrayType hasLen elt) = "[]".toList ++ exprToString elt) ∧
    (∀ key value : Expr, exprToString (.MapType key value) =
      "map[".toList ++ exprToString key ++ "]".toList ++ exprToString value) ∧
    (∀ elt : Expr, exprToString (.Ellipsis elt) = "...".toList ++ exprToString elt) ∧
    (∀ kind : OtherExpr, exprToString (.Other kind) = kind.typeName ∧
      "*ast.".toList <+: kind.typeName) ∧
    exprToString (.Other .InterfaceType) = "*ast.InterfaceType".toList ∧
    (∀ e : Expr, (∀ name ∈ identsOf e, '\x7b' ∉ name) →
      exprToString e ≠ "interface\x7b\x7d".toList) ∧
    fixName (exprToString (.Other .InterfaceType)) = "models.*ast.InterfaceType".toList ∧
    (∀ p : Str, ' ' ∉ p →
      fixName (p ++ " ".toList ++ exprToString (.Other .InterfaceType)) =
        p ++ " ".toList ++ "models.*ast.InterfaceType".toList) := by
  refine ⟨fun _ => rfl, fun _ _ => rfl, fun _ => rfl, fun _ _ => rfl, fun _ _ => rfl,
    fun _ => rfl, ?_, rfl, ?_, by decide, ?_⟩
  · intro kind
    refine ⟨rfl, (HasPrefix_iff _ _).1 ?_⟩
    cases kind <;> decide
  · intro e h heq
    have hb := exprToString_no_brace e h
    rw [heq] at hb
    exact hb (by decide)
  · intro p hp
    have ht : ' ' ∉ exprToString (.Other .InterfaceType) := by decide
    rw [fixName_two_tokens p _ hp ht]
    have hf : fixName (exprToString (.Other .InterfaceType)) =
        "models.*ast.InterfaceType".toList := by decide
    rw [hf]

/-- Witness of C19 at
`PutValue(ctx context.Context, v interface{}) interface{}`. -/
theorem C19_witness :
    exprToString mapOfSlices ≠ "interface\x7b\x7d".toList ∧
    (buildMethod putValue).ParamsStr =
      "ctx context.Context, v models.*ast.InterfaceType".toList ∧
    (buildMethod putValue).ResultsStr = "models.*ast.InterfaceType".toList :=
  ⟨C19_exprToString_rendering.2.2.2.2.2.2.2.2.1 mapOfSlices (by decide), by decide,
    by decide⟩

/-- Claim C20: a type expression whose identifiers hold no space renders
without space; so for a name without space the parameter string
name + " " + type holds exactly one space, and `fixName` finds the space and
splits the string into the two tokens name and type. -/
theorem C20_two_tokens (e : Expr) (h : ∀ name ∈ identsOf e, ' ' ∉ name) :
    ' ' ∉ exprToString e ∧
    ∀ name : Str, ' ' ∉ name →
      (name ++ " ".toList ++ exprToString e).count ' ' = 1 ∧
      Contains (name ++ " ".toList ++ exprToString e) " ".toList = true ∧
      Split ' ' (name ++ " ".toList ++ exprToString e) = [name, exprToString e] := by
  have ht := exprToString_no_space e h
  refine ⟨ht, ?_⟩
  intro name hn
  have hsp : " ".toList = [' '] := rfl
  refine ⟨?_, ?_, ?_⟩
  · rw [hsp, List.count_append, List.count_append, List.count_eq_zero.2 hn,
      List.count_eq_zero.2 ht]
    rfl
  · rw [hsp, Contains_char]
    simp
  · rw [hsp, List.append_assoc, List.singleton_append, Split_append ' ' name _ hn,
      Split_of_not_mem ' ' _ ht]

/-- Witness of C20 at the parameter `arg map[string][]models.Foo`. -/
theorem C20_witness :
    ' ' ∉ exprToString mapOfSlices ∧
    Split ' ' ("arg".toList ++ " ".toList ++ exprToString mapOfSlices) =
      ["arg".toList, "map[string][]models.Foo".toList] :=
  ⟨(C20_two_tokens mapOfSlices (by decide)).1,
    (((C20_two_tokens mapOfSlices (by decide)).2 "arg".toList (by decide)).2.2).trans
      (by decide)⟩

end GenerateWrapper
